import Mathlib

/-!
Verification of the lambda-appsync repository: a shallow embedding of the
runtime crate (`lambda-appsync/src/lib.rs`, `subscription_filters.rs`) and of
the proc-macro configuration fold and generated dispatch code
(`lambda-appsync-proc/src/appsync_lambda_main/mod.rs`), with theorems about
the configuration directives, type-override maps, response serialization,
argument extraction, the hook short-circuit and the batch handler.
-/

/-- Model of `serde_json::Value`. Numbers are modelled as integers, which is
enough for every claim considered here (no claim depends on float payloads). -/
inductive Json where
  | null : Json
  | bool : Bool → Json
  | num : Int → Json
  | str : String → Json
  | arr : List Json → Json
  | obj : List (String × Json) → Json

/-- Association-list lookup: the value of the first pair whose key matches.
Models map lookup (`HashMap::get` / `serde_json::Map::get`). -/
def alistGet {α : Type} : List (String × α) → String → Option α
  | [], _ => none
  | (k, v) :: rest, key => if k = key then some v else alistGet rest key

/-- Association-list insert: replaces the value of an existing key in place,
appends the pair otherwise. Models `HashMap::insert` observationally. -/
def alistInsert {α : Type} : List (String × α) → String → α → List (String × α)
  | [], key, v => [(key, v)]
  | (k, w) :: rest, key, v =>
    if k = key then (k, v) :: rest else (k, w) :: alistInsert rest key v

/-- Replace the value of an existing key in place; the identity when the key
is absent. Models a mutation through `get_mut` (which yields `None`, hence no
write, for an absent key). -/
def alistReplace {α : Type} : List (String × α) → String → α → List (String × α)
  | [], _, _ => []
  | (k, w) :: rest, key, v =>
    if k = key then (k, v) :: rest else (k, w) :: alistReplace rest key v

/-- Modify the entry of `key`, inserting `d` first when absent. Models the
Rust idiom `map.entry(key).or_default()` followed by a mutation `f` of the
entry. -/
def alistModify {α : Type} (l : List (String × α)) (key : String) (d : α)
    (f : α → α) : List (String × α) :=
  alistInsert l key (f ((alistGet l key).getD d))

/-- Whether a JSON value is an object holding the given key. -/
def Json.hasKey : Json → String → Bool
  | .obj kvs, k => kvs.any fun p => p.1 = k
  | _, _ => false

/-- The keys of a JSON object, in order (empty for non-objects). -/
def Json.keys : Json → List String
  | .obj kvs => kvs.map Prod.fst
  | _ => []

/-- `AppsyncError` of `lambda-appsync/src/lib.rs`: an error type tag and a
message. -/
structure AppsyncError where
  error_type : String
  error_message : String
deriving DecidableEq

/-- `AppsyncError::new`. -/
def AppsyncError.new (t m : String) : AppsyncError := ⟨t, m⟩

/-- `AppsyncError`'s `BitOr` impl: type tags joined by a pipe, messages by a
newline. -/
def AppsyncError.bitor (a b : AppsyncError) : AppsyncError :=
  ⟨a.error_type ++ "|" ++ b.error_type, a.error_message ++ "\n" ++ b.error_message⟩

/-- `AppsyncResponse` of `lambda-appsync/src/lib.rs`: `data: Option<Value>`
and a flattened `error: Option<AppsyncError>`. -/
structure AppsyncResponse where
  data : Option Json
  error : Option AppsyncError

/-- The `From<Value> for AppsyncResponse` impl: a success response. -/
def AppsyncResponse.fromValue (v : Json) : AppsyncResponse := ⟨some v, none⟩

/-- The `From<AppsyncError> for AppsyncResponse` impl: an error response. -/
def AppsyncResponse.fromError (e : AppsyncError) : AppsyncResponse := ⟨none, some e⟩

/-- `AppsyncResponse::unauthorized`. -/
def AppsyncResponse.unauthorized : AppsyncResponse :=
  AppsyncResponse.fromError (AppsyncError.new "Unauthorized" "This operation cannot be authorized")

/-- Serde serialization of `AppsyncError` under `rename_all = "camelCase"`:
the two fields become `errorType` and `errorMessage`. -/
def serializeAppsyncError (e : AppsyncError) : List (String × Json) :=
  [("errorType", .str e.error_type), ("errorMessage", .str e.error_message)]

/-- Serde serialization of `AppsyncResponse`. The `data` field carries no
`skip_serializing_if`, so it is always emitted, with `None` rendered as JSON
null; the `error` field is flattened and skipped when `None`. -/
def serializeResponse (r : AppsyncResponse) : Json :=
  .obj (("data", r.data.getD .null) ::
    (match r.error with
      | some e => serializeAppsyncError e
      | none => []))

/-- `FieldPath` of `subscription_filters.rs`: a newtype over the path string. -/
structure FieldPath where
  path : String
deriving DecidableEq

/-- `FieldPath::new`: rejects the path when `path.len()` — the UTF-8 byte
length of the Rust string — exceeds 256, and wraps it unchanged otherwise. -/
def FieldPath.new (path : String) : Except AppsyncError FieldPath :=
  if path.utf8ByteSize > 256 then
    .error (AppsyncError.new "ValidationError" "Field path exceeds 256 characters")
  else
    .ok ⟨path⟩

/-- The argument slot read by `arg_from_json`: `args.get_mut(arg_name)`
defaulted to JSON null when the name is absent or `args` is not an object. -/
def jsonGetSlot : Json → String → Json
  | .obj kvs, name => (alistGet kvs name).getD .null
  | _, _ => .null

/-- The effect of `.take()` on the argument slot: the first entry of the
name, when present, is left holding JSON null; an absent name (where
`get_mut` yields `None` and the `take` hits a temporary) changes nothing. -/
def jsonTakeSlot : Json → String → Json
  | .obj kvs, name => .obj (alistReplace kvs name .null)
  | j, _ => j

/-- `arg_from_json` of `lambda-appsync/src/lib.rs`, parametrized by the
deserializer `decode` standing for `serde_json::from_value::<T>` (an `Err`
carries serde's display message). Returns the call's result together with the
arguments object as the call leaves it. -/
def arg_from_json {T : Type} (decode : Json → Except String T) (args : Json)
    (arg_name : String) : Except AppsyncError T × Json :=
  let v := jsonGetSlot args arg_name
  let args' := jsonTakeSlot args arg_name
  match decode v with
  | .ok t => (.ok t, args')
  | .error e =>
    (.error (AppsyncError.new "InvalidArgs"
      ("Argument \"" ++ arg_name ++ "\" is not the expected format (" ++ e ++ ")")), args')

/-- `AppsyncAuthStrategy` of `lambda-appsync/src/lib.rs`. -/
inductive AppsyncAuthStrategy where
  | Allow : AppsyncAuthStrategy
  | Deny : AppsyncAuthStrategy

/-- `CognitoIdentityAuthType` of `lambda-appsync/src/lib.rs`. -/
inductive CognitoIdentityAuthType where
  | Authenticated : CognitoIdentityAuthType
  | Unauthenticated : CognitoIdentityAuthType

/-- `AppsyncIdentityCognito` of `lambda-appsync/src/lib.rs`. -/
structure AppsyncIdentityCognito where
  sub : String
  username : String
  issuer : String
  default_auth_strategy : AppsyncAuthStrategy
  source_ip : List String
  groups : Option (List String)
  claims : Json

/-- `CognitoFederatedIdentity` of `lambda-appsync/src/lib.rs`. -/
structure CognitoFederatedIdentity where
  identity_id : String
  identity_pool_id : String
  auth_type : CognitoIdentityAuthType
  auth_provider : String

/-- `AppsyncIdentityIam` of `lambda-appsync/src/lib.rs`. -/
structure AppsyncIdentityIam where
  account_id : String
  source_ip : List String
  username : String
  user_arn : String
  federated_identity : Option CognitoFederatedIdentity

/-- `AppsyncIdentityOidcClaims` of `lambda-appsync/src/lib.rs`. -/
structure AppsyncIdentityOidcClaims where
  iss : String
  sub : String
  aud : List String
  exp : Int
  iat : Int
  additional_claims : List (String × Json)

/-- `AppsyncIdentityOidc` of `lambda-appsync/src/lib.rs`. -/
structure AppsyncIdentityOidc where
  claims : AppsyncIdentityOidcClaims
  sub : String
  issuer : String

/-- `AppsyncIdentityLambda` of `lambda-appsync/src/lib.rs`. -/
structure AppsyncIdentityLambda where
  resolver_context : Json

/-- `AppsyncIdentity` of `lambda-appsync/src/lib.rs`: the five authorization
modes. -/
inductive AppsyncIdentity where
  | Cognito : AppsyncIdentityCognito → AppsyncIdentity
  | Iam : AppsyncIdentityIam → AppsyncIdentity
  | Oidc : AppsyncIdentityOidc → AppsyncIdentity
  | Lambda : AppsyncIdentityLambda → AppsyncIdentity
  | ApiKey : AppsyncIdentity

/-- `AppsyncEventInfo<O>` of `lambda-appsync/src/lib.rs`. -/
structure AppsyncEventInfo (O : Type) where
  operation : O
  selection_set_graphql : String
  selection_set_list : List String
  variables' : List (String × Json)

/-- `AppsyncEvent<O>` of `lambda-appsync/src/lib.rs`. -/
structure AppsyncEvent (O : Type) where
  identity : AppsyncIdentity
  request : Json
  source : Json
  info : AppsyncEventInfo O
  args : Json

/-- The generated `appsync_handler` of `appsync_lambda_main/mod.rs`
(`AppsyncLambdaMain::appsync_event_handler`): when a hook is configured it is
called on the event first and a `Some` result is returned as-is; otherwise
`event.info.operation.execute(event)` is dispatched. `execute` stands for the
generated `Operation::execute` dispatch table. -/
def appsync_handler {O : Type}
    (hook : Option (AppsyncEvent O → Option AppsyncResponse))
    (execute : O → AppsyncEvent O → AppsyncResponse)
    (event : AppsyncEvent O) : AppsyncResponse :=
  match hook with
  | some h =>
    match h event with
    | some resp => resp
    | none => execute event.info.operation event
  | none => execute event.info.operation event

/-- The collection loop of the generated `appsync_batch_handler`:
`for h in handles { results.push(h.await.unwrap()) }`. A task outcome of
`none` stands for a task that faulted unexpectedly (its join fails and the
`unwrap` panic aborts the whole invocation, modelled as `none`); otherwise
every task's response is pushed in handle order. -/
def collectResponses {α : Type} : List (Option α) → Option (List α)
  | [] => some []
  | o :: rest =>
    match o with
    | none => none
    | some r =>
      match collectResponses rest with
      | none => none
      | some rs => some (r :: rs)

/-- The generated `appsync_batch_handler` of `appsync_lambda_main/mod.rs`:
one task per event is spawned immediately (`run` stands for the spawned
`appsync_handler` execution, `none` being an unexpected fault) and the
handles are awaited in original submission order. -/
def appsync_batch_handler {O : Type}
    (run : AppsyncEvent O → Option AppsyncResponse)
    (events : List (AppsyncEvent O)) : Option (List AppsyncResponse) :=
  collectResponses (events.map run)

/-- Concurrency model for the batch: the spawned tasks finish in the order
given by `sched` (a permutation of the task indices), each completion
recording the task's own index alongside its outcome. -/
def completeInOrder {α : Type} (outcomes : List α) (sched : List Nat) :
    List (Nat × α) :=
  sched.filterMap fun i => (outcomes[i]?).map fun r => (i, r)

/-- Awaiting the join handle of task `i` reads that task's own recorded
outcome, wherever it stands in the completion record. -/
def awaitHandle {α : Type} (table : List (Nat × α)) (i : Nat) : Option α :=
  (table.find? fun p => p.1 == i).map Prod.snd

/-- Modelled from the spec: the `TypeOverride` record of the proc-macro's
`overrides` module, whose source file is not under the repository's staged
files. The spec's data model gives the directive as
`TypeOverride{type, field, arg?, new_type}`, matching the accessors
`type_name()`, `field_name()` and `arg_name()` used by
`appsync_lambda_main/mod.rs`. -/
structure TypeOverride where
  type_name : String
  field_name : String
  arg_name : Option String
  new_type : String
deriving DecidableEq

/-- Modelled from the spec: the `NameOverride` record of the proc-macro's
`overrides` module (`NameOverride{type, field_or_variant?, new_name}`),
matching the accessors `type_name()` and `field_name()` used by
`appsync_lambda_main/mod.rs`. -/
structure NameOverride where
  type_name : String
  field_name : Option String
  new_name : String
deriving DecidableEq

/-- `OptionalParameter` of `appsync_lambda_main/mod.rs`: one parsed
`identifier = value` directive. The hook identifier is modelled as its
name. -/
inductive OptionalParameter where
  | Batch : Bool → OptionalParameter
  | ExcludeLambdaHandler : Bool → OptionalParameter
  | OnlyLambdaHandler : Bool → OptionalParameter
  | ExcludeAppsyncTypes : Bool → OptionalParameter
  | OnlyAppsyncTypes : Bool → OptionalParameter
  | ExcludeAppsyncOperations : Bool → OptionalParameter
  | OnlyAppsyncOperations : Bool → OptionalParameter
  | Hook : String → OptionalParameter
  | TypeOverride : TypeOverride → OptionalParameter
  | NameOverride : NameOverride → OptionalParameter
deriving DecidableEq

/-- `ArgTypeOverrides`: argument name → type override. -/
def ArgTypeOverrides : Type := List (String × TypeOverride)

/-- `FieldTypeOverride`: optional field-level override and the per-argument
override map. -/
def FieldTypeOverride : Type := Option TypeOverride × ArgTypeOverrides

/-- `FieldTypeOverrides`: field name → `FieldTypeOverride`. -/
def FieldTypeOverrides : Type := List (String × FieldTypeOverride)

/-- `TypeOverrides`: type name → `FieldTypeOverrides`. -/
def TypeOverrides : Type := List (String × FieldTypeOverrides)

/-- `FieldNameOverrides`: field name → name override. -/
def FieldNameOverrides : Type := List (String × NameOverride)

/-- `TypeNameOverride`: optional type-level rename and the per-field rename
map. -/
def TypeNameOverride : Type := Option NameOverride × FieldNameOverrides

/-- `NameOverrides`: type name → `TypeNameOverride`. -/
def NameOverrides : Type := List (String × TypeNameOverride)

/-- `OptionalParameters` of `appsync_lambda_main/mod.rs`: the folded
configuration state. -/
structure OptionalParameters where
  batch : Bool
  appsync_types : Bool
  appsync_operations : Bool
  lambda_handler : Bool
  hook : Option String
  tos : TypeOverrides
  nos : NameOverrides

/-- The `Default` impl of `OptionalParameters`: every boolean true, no hook,
empty override maps. -/
def OptionalParameters.default : OptionalParameters :=
  ⟨true, true, true, true, none, [], []⟩

/-- `OptionalParameters::set`: folds one directive into the state. The Rust
match guards (`ExcludeLambdaHandler(b) if b => …` with a trailing catch-all
arm doing nothing) appear here as `if`: a false-valued visibility directive
leaves the state unchanged. -/
def OptionalParameters.set (s : OptionalParameters) (p : OptionalParameter) :
    OptionalParameters :=
  match p with
  | .Batch b => { s with batch := b }
  | .ExcludeLambdaHandler b =>
    if b then { s with lambda_handler := false } else s
  | .OnlyLambdaHandler b =>
    if b then
      { s with lambda_handler := true, appsync_types := false, appsync_operations := false }
    else s
  | .ExcludeAppsyncTypes b =>
    if b then { s with appsync_types := false } else s
  | .OnlyAppsyncTypes b =>
    if b then
      { s with lambda_handler := false, appsync_types := true, appsync_operations := false }
    else s
  | .ExcludeAppsyncOperations b =>
    if b then { s with appsync_operations := false } else s
  | .OnlyAppsyncOperations b =>
    if b then
      { s with lambda_handler := false, appsync_types := false, appsync_operations := true }
    else s
  | .Hook ident => { s with hook := some ident }
  | .TypeOverride tov =>
    { s with tos :=
        (alistModify s.tos tov.type_name []
          (fun ftos =>
            alistModify ftos tov.field_name (none, [])
              (fun fe =>
                match tov.arg_name with
                | some an => (fe.1, alistInsert fe.2 an tov)
                | none => (some tov, fe.2)))) }
  | .NameOverride nov =>
    { s with nos :=
        (alistModify s.nos nov.type_name (none, [])
          (fun te =>
            match nov.field_name with
            | some fn => (te.1, alistInsert te.2 fn nov)
            | none => (some nov, te.2))) }

/-- Folding a whole directive sequence left-to-right from the default state,
as `AppsyncLambdaMain::parse` does. -/
def applyAll (ps : List OptionalParameter) : OptionalParameters :=
  ps.foldl OptionalParameters.set OptionalParameters.default

/-- The field-level type-override slot of `Type.field` in the folded state. -/
def fieldOverride (s : OptionalParameters) (t f : String) : Option TypeOverride :=
  match alistGet s.tos t with
  | none => none
  | some ftos =>
    match alistGet ftos f with
    | none => none
    | some fe => fe.1

/-- The argument-level type-override slot of `Type.field.arg` in the folded
state. -/
def argOverride (s : OptionalParameters) (t f a : String) : Option TypeOverride :=
  match alistGet s.tos t with
  | none => none
  | some ftos =>
    match alistGet ftos f with
    | none => none
    | some fe => alistGet fe.2 a

/-- `AWSClient` of `appsync_lambda_main/mod.rs`: a client declaration
`name() -> ClientType`, with the type kept as its textual reference. -/
structure AWSClient where
  fct_identifier : String
  client_type : String
deriving DecidableEq

/-- One item of the macro's argument list after the schema path, as
`AppsyncLambdaMain::parse` classifies it: an `identifier = value` directive,
a client declaration, or anything else (rejected). -/
inductive MainArg where
  | param : OptionalParameter → MainArg
  | client : AWSClient → MainArg
  | unknown : MainArg
deriving DecidableEq

/-- Whether a macro argument is the rejected `unknown` case. -/
def MainArg.isUnknown : MainArg → Bool
  | .unknown => true
  | _ => false

/-- The parsed result of `AppsyncLambdaMain::parse` restricted to the
argument list: the folded options and the declared clients in order. -/
structure ParsedMain where
  options : OptionalParameters
  aws_clients : List AWSClient

/-- The argument loop of `AppsyncLambdaMain::parse`: parameters are folded
into the options, clients are pushed in order, anything else aborts with
`Unknown argument`. -/
def parseArgsFrom (opts : OptionalParameters) (clients : List AWSClient) :
    List MainArg → Except String ParsedMain
  | [] => .ok ⟨opts, clients⟩
  | .param p :: rest => parseArgsFrom (opts.set p) clients rest
  | .client c :: rest => parseArgsFrom opts (clients ++ [c]) rest
  | .unknown :: _ => .error "Unknown argument"

/-- `AppsyncLambdaMain::parse` on the argument list following the schema
path, starting from the default options and no clients. -/
def parseArgs (args : List MainArg) : Except String ParsedMain :=
  parseArgsFrom OptionalParameters.default [] args

/-- The client declarations contained in an argument list, in order. -/
def clientsOf (args : List MainArg) : List AWSClient :=
  args.filterMap fun a =>
    match a with
    | .client c => some c
    | _ => none

/-- Whether an `Except` is `ok`. -/
def exceptOk {ε α : Type} : Except ε α → Bool
  | .ok _ => true
  | .error _ => false

theorem alistGet_insert_self {α : Type} (l : List (String × α)) (k : String) (v : α) :
    alistGet (alistInsert l k v) k = some v := by
  induction l with
  | nil => simp [alistInsert, alistGet]
  | cons hd tl ih =>
    obtain ⟨k0, w0⟩ := hd
    by_cases h : k0 = k
    · simp [alistInsert, alistGet, h]
    · simp [alistInsert, alistGet, h, ih]

theorem alistGet_insert_ne {α : Type} (l : List (String × α)) (k k' : String) (v : α)
    (h : k' ≠ k) : alistGet (alistInsert l k v) k' = alistGet l k' := by
  induction l with
  | nil => simp [alistInsert, alistGet, Ne.symm h]
  | cons hd tl ih =>
    obtain ⟨k0, w0⟩ := hd
    by_cases h0 : k0 = k
    · subst h0
      simp [alistInsert, alistGet, Ne.symm h]
    · simp only [alistInsert, if_neg h0]
      by_cases h1 : k0 = k'
      · simp [alistGet, h1]
      · simp [alistGet, h1, ih]

theorem alistGet_modify_self {α : Type} (l : List (String × α)) (k : String) (d : α)
    (f : α → α) : alistGet (alistModify l k d f) k = some (f ((alistGet l k).getD d)) := by
  simp [alistModify, alistGet_insert_self]

theorem alistGet_modify_ne {α : Type} (l : List (String × α)) (k k' : String) (d : α)
    (f : α → α) (h : k' ≠ k) : alistGet (alistModify l k d f) k' = alistGet l k' := by
  simp [alistModify, alistGet_insert_ne _ _ _ _ h]

theorem alistGet_replace_self {α : Type} (l : List (String × α)) (k : String) (v : α) :
    alistGet (alistReplace l k v) k = (alistGet l k).map fun _ => v := by
  induction l with
  | nil => simp [alistReplace, alistGet]
  | cons hd tl ih =>
    obtain ⟨k0, w0⟩ := hd
    by_cases h : k0 = k
    · simp [alistReplace, alistGet, h]
    · simp [alistReplace, alistGet, h, ih]

theorem alistGet_replace_ne {α : Type} (l : List (String × α)) (k k' : String) (v : α)
    (h : k' ≠ k) : alistGet (alistReplace l k v) k' = alistGet l k' := by
  induction l with
  | nil => simp [alistReplace]
  | cons hd tl ih =>
    obtain ⟨k0, w0⟩ := hd
    by_cases h0 : k0 = k
    · subst h0
      simp [alistReplace, alistGet, Ne.symm h]
    · simp only [alistReplace, if_neg h0]
      by_cases h1 : k0 = k'
      · simp [alistGet, h1]
      · simp [alistGet, h1, ih]

theorem alistReplace_keys {α : Type} (l : List (String × α)) (k : String) (v : α) :
    (alistReplace l k v).map Prod.fst = l.map Prod.fst := by
  induction l with
  | nil => simp [alistReplace]
  | cons hd tl ih =>
    obtain ⟨k0, w0⟩ := hd
    by_cases h : k0 = k
    · simp [alistReplace, h]
    · simp [alistReplace, h, ih]

theorem collectResponses_map_some {α : Type} (res : List α) :
    collectResponses (res.map some) = some res := by
  induction res with
  | nil => simp [collectResponses]
  | cons r rs ih => simp [collectResponses, ih]

theorem collectResponses_some_imp {α : Type} (l : List (Option α)) :
    ∀ (res : List α), collectResponses l = some res → l = res.map some := by
  induction l with
  | nil =>
    intro res h
    simp only [collectResponses, Option.some.injEq] at h
    simp [← h]
  | cons o rest ih =>
    intro res h
    cases o with
    | none => simp [collectResponses] at h
    | some r =>
      cases hrest : collectResponses rest with
      | none => simp [collectResponses, hrest] at h
      | some rs =>
        simp only [collectResponses, hrest] at h
        cases h
        simp [ih rs hrest]

theorem collectResponses_eq_some {α : Type} (l : List (Option α)) (res : List α) :
    collectResponses l = some res ↔ l = res.map some := by
  constructor
  · exact collectResponses_some_imp l res
  · intro h
    rw [h]
    exact collectResponses_map_some res

theorem collectResponses_eq_none {α : Type} (l : List (Option α)) :
    collectResponses l = none ↔ none ∈ l := by
  induction l with
  | nil => simp [collectResponses]
  | cons o rest ih =>
    cases o with
    | none => simp [collectResponses]
    | some r =>
      cases h : collectResponses rest with
      | none => simp [collectResponses, h, ih.mp h]
      | some rs =>
        have hnm : ¬ (none ∈ rest) := fun hm => by
          have h2 := ih.mpr hm
          rw [h] at h2
          exact absurd h2 (by simp)
        simp [collectResponses, h, hnm]

theorem awaitHandle_completeInOrder {α : Type} (outcomes : List α) (sched : List Nat)
    (i : Nat) (hmem : i ∈ sched) (hlt : ∀ j ∈ sched, j < outcomes.length) :
    awaitHandle (completeInOrder outcomes sched) i = outcomes[i]? := by
  induction sched with
  | nil => cases hmem
  | cons j rest ih =>
    have hj : j < outcomes.length := hlt j (List.mem_cons_self _ _)
    obtain ⟨v, hv⟩ : ∃ v, outcomes[j]? = some v :=
      ⟨outcomes.get ⟨j, hj⟩, List.getElem?_eq_getElem hj⟩
    by_cases hij : j = i
    · subst hij
      simp [completeInOrder, awaitHandle, hv]
    · have hmem' : i ∈ rest := by
        rcases List.mem_cons.mp hmem with h | h
        · exact absurd h.symm hij
        · exact h
      have hlt' : ∀ k ∈ rest, k < outcomes.length := fun k hk =>
        hlt k (List.mem_cons_of_mem _ hk)
      have hrec := ih hmem' hlt'
      simpa [completeInOrder, awaitHandle, hv, hij] using hrec

theorem map_getElem?_range {α : Type} (l : List α) :
    (List.range l.length).map (fun i => l[i]?) = l.map some := by
  induction l with
  | nil => simp
  | cons hd tl ih =>
    rw [List.length_cons, List.range_succ_eq_map, List.map_cons, List.map_map]
    refine congrArg₂ List.cons (by simp) ?_
    rw [← ih]
    exact List.map_congr_left fun i _ => by simp

theorem parseArgsFrom_ok_iff (opts : OptionalParameters) (clients : List AWSClient)
    (args : List MainArg) :
    exceptOk (parseArgsFrom opts clients args) = args.all fun a => !a.isUnknown := by
  induction args generalizing opts clients with
  | nil => simp [parseArgsFrom, exceptOk]
  | cons a rest ih =>
    cases a with
    | param p => simp [parseArgsFrom, MainArg.isUnknown, ih]
    | client c => simp [parseArgsFrom, MainArg.isUnknown, ih]
    | unknown => simp [parseArgsFrom, MainArg.isUnknown, exceptOk]

theorem parseArgsFrom_clients (opts : OptionalParameters) (clients : List AWSClient)
    (args : List MainArg) (pm : ParsedMain)
    (h : parseArgsFrom opts clients args = .ok pm) :
    pm.aws_clients = clients ++ clientsOf args := by
  induction args generalizing opts clients with
  | nil =>
    simp only [parseArgsFrom, Except.ok.injEq] at h
    simp [← h, clientsOf]
  | cons a rest ih =>
    cases a with
    | param p =>
      simp only [parseArgsFrom] at h
      simpa [clientsOf] using ih _ _ h
    | client c =>
      simp only [parseArgsFrom] at h
      have h2 := ih _ _ h
      simpa [clientsOf] using h2
    | unknown => simp [parseArgsFrom] at h

/-- A sample generated Operation enum with three operations, for concrete
instances of the generated handlers (the spec's batch example has three
events). -/
inductive SampleOp where
  | opA : SampleOp
  | opB : SampleOp
  | opC : SampleOp
deriving DecidableEq

/-- A concrete event carrying the given operation: API-key identity, null
request/source/arguments. -/
def mkEvent (op : SampleOp) : AppsyncEvent SampleOp :=
  ⟨.ApiKey, .null, .null, ⟨op, "", [], []⟩, .null⟩

/-- Per-event outcomes of the spec's three-event batch example: the second
handler succeeds, the first and third fail with domain errors; every task
completes (a domain-error response is a completed task). -/
def sampleRun (e : AppsyncEvent SampleOp) : Option AppsyncResponse :=
  match e.info.operation with
  | .opA => some (AppsyncResponse.fromError (AppsyncError.new "Err1" "first failed"))
  | .opB => some (AppsyncResponse.fromValue (.str "ok2"))
  | .opC => some (AppsyncResponse.fromError (AppsyncError.new "Err3" "third failed"))

/-- The three events of the batch example, in submission order. -/
def sampleEvents : List (AppsyncEvent SampleOp) := [mkEvent .opA, mkEvent .opB, mkEvent .opC]

/-- Per-event outcomes of a batch where the task of every operation but
`opA` faults unexpectedly. -/
def faultyRun (e : AppsyncEvent SampleOp) : Option AppsyncResponse :=
  match e.info.operation with
  | .opA => some (AppsyncResponse.fromValue (.str "ok"))
  | _ => none

/-- A concrete hook: denies operation `opA`, passes on everything else. -/
def sampleHook (e : AppsyncEvent SampleOp) : Option AppsyncResponse :=
  match e.info.operation with
  | .opA => some AppsyncResponse.unauthorized
  | _ => none

/-- A concrete dispatch table for the sample operations. -/
def sampleExecute (op : SampleOp) (_e : AppsyncEvent SampleOp) : AppsyncResponse :=
  match op with
  | .opA => AppsyncResponse.fromValue (.str "A")
  | .opB => AppsyncResponse.fromValue (.str "B")
  | .opC => AppsyncResponse.fromValue (.str "C")

/-- A concrete deserializer standing for `serde_json::from_value::<String>`:
accepts exactly JSON strings. -/
def decodeStr : Json → Except String String
  | .str s => .ok s
  | _ => .error "invalid type"

/-- A concrete macro argument list: two distinct clients around a `batch`
directive. -/
def demoArgs : List MainArg :=
  [.client ⟨"dynamodb", "aws_sdk_dynamodb::Client"⟩, .param (.Batch false),
    .client ⟨"s3", "aws_sdk_s3::Client"⟩]

/-- C6 counterexample: the serialized error response built by
`AppsyncResponse::unauthorized` carries a `data` field (holding null) next
to `errorType` and `errorMessage`, refuting the claim that an error response
carries no `data` field. -/
theorem serializeResponse_error_has_data :
    (serializeResponse AppsyncResponse.unauthorized).hasKey "data" = true
    ∧ (serializeResponse AppsyncResponse.unauthorized).hasKey "errorType" = true
    ∧ (serializeResponse AppsyncResponse.unauthorized).hasKey "errorMessage" = true :=
  ⟨rfl, rfl, rfl⟩

/-- C6 (amended): every serialized response carries a `data` key: a success
response is exactly the data value with no error fields, while an error
response — `AppsyncResponse::unauthorized` included — serializes with null
`data` plus `errorType` and `errorMessage`; a non-null `data` never appears
together with error fields. -/
theorem serializeResponse_shape (v : Json) (e : AppsyncError) :
    serializeResponse (AppsyncResponse.fromValue v) = .obj [("data", v)]
    ∧ serializeResponse (AppsyncResponse.fromError e)
        = .obj [("data", .null), ("errorType", .str e.error_type),
            ("errorMessage", .str e.error_message)]
    ∧ serializeResponse AppsyncResponse.unauthorized
        = .obj [("data", .null), ("errorType", .str "Unauthorized"),
            ("errorMessage", .str "This operation cannot be authorized")] :=
  ⟨rfl, rfl, rfl⟩

/-- C7 counterexample: an argument list declaring two clients with the same
accessor name is accepted by `AppsyncLambdaMain::parse` (there is no
uniqueness check), both identically-named clients ending up in the parsed
configuration. -/
theorem parse_duplicate_clients_accepted :
    parseArgs [.client ⟨"dynamodb", "aws_sdk_dynamodb::Client"⟩,
        .client ⟨"dynamodb", "aws_sdk_dynamodb::Client"⟩]
      = .ok ⟨OptionalParameters.default,
          [⟨"dynamodb", "aws_sdk_dynamodb::Client"⟩,
            ⟨"dynamodb", "aws_sdk_dynamodb::Client"⟩]⟩ :=
  rfl

/-- C7 (amended): the parser enforces no uniqueness on client accessor
names: an argument list is accepted exactly when every item is well formed
(no `unknown` item), and the accepted configuration keeps every declared
client in declaration order, duplicates included. -/
theorem parse_collects_clients (args : List MainArg) :
    (exceptOk (parseArgs args) = args.all fun a => !a.isUnknown)
    ∧ ∀ pm, parseArgs args = .ok pm → pm.aws_clients = clientsOf args := by
  refine ⟨parseArgsFrom_ok_iff _ _ _, fun pm h => ?_⟩
  simpa using parseArgsFrom_clients _ _ _ _ h

/-- C7 witness: the amended statement at a concrete argument list of two
distinct clients and one directive. -/
theorem parse_collects_clients_witness :
    (exceptOk (parseArgs demoArgs) = demoArgs.all fun a => !a.isUnknown)
    ∧ ParsedMain.aws_clients
        ⟨⟨false, true, true, true, none, [], []⟩,
          [⟨"dynamodb", "aws_sdk_dynamodb::Client"⟩, ⟨"s3", "aws_sdk_s3::Client"⟩]⟩
      = clientsOf demoArgs := by
  refine ⟨(parse_collects_clients demoArgs).1, ?_⟩
  exact (parse_collects_clients demoArgs).2 _ rfl

set_option maxRecDepth 8192 in
/-- C8 counterexample: a path of 129 two-byte characters has no more than
256 characters yet is rejected by `FieldPath::new`, because the code bounds
`path.len()`, the UTF-8 byte length. -/
theorem fieldPath_new_chars_cex :
    (String.mk (List.replicate 129 'é')).length ≤ 256
    ∧ FieldPath.new (String.mk (List.replicate 129 'é'))
        = .error (AppsyncError.new "ValidationError" "Field path exceeds 256 characters") :=
  ⟨by decide, rfl⟩

/-- C8 (amended): `FieldPath::new` returns a ValidationError exactly when
the path's UTF-8 byte length (Rust `String::len`) exceeds 256, and Ok
wrapping the unchanged path whenever that byte length is at most 256; for
ASCII paths the byte length coincides with the character count. -/
theorem fieldPath_new_spec (path : String) :
    (path.utf8ByteSize > 256 →
      FieldPath.new path
        = .error (AppsyncError.new "ValidationError" "Field path exceeds 256 characters"))
    ∧ (path.utf8ByteSize ≤ 256 → FieldPath.new path = .ok ⟨path⟩) := by
  constructor
  · intro h
    simp [FieldPath.new, h]
  · intro h
    simp [FieldPath.new, Nat.not_lt.mpr h]

set_option maxRecDepth 8192 in
/-- C8 witness: the amended statement at a long non-ASCII path (258 bytes,
rejected) and at a short path (accepted unchanged). -/
theorem fieldPath_new_spec_witness :
    ((String.mk (List.replicate 129 'é')).utf8ByteSize > 256
      ∧ FieldPath.new (String.mk (List.replicate 129 'é'))
          = .error (AppsyncError.new "ValidationError" "Field path exceeds 256 characters"))
    ∧ ("user.name".utf8ByteSize ≤ 256 ∧ FieldPath.new "user.name" = .ok ⟨"user.name"⟩) := by
  constructor
  · exact ⟨by decide, (fieldPath_new_spec _).1 (by decide)⟩
  · exact ⟨by decide, (fieldPath_new_spec _).2 (by decide)⟩

/-- C2: the six only_*/exclude_* visibility directives fold asymmetrically:
with value false each is a no-op on any state, with value true each applies
exactly its fixed transition, and from the default flags
`only_appsync_types = true` then `exclude_lambda_handler = true` yields
lambda_handler false, appsync_types true, appsync_operations false. -/
theorem visibility_flags_asymmetric : ∀ s : OptionalParameters,
    (s.set (.ExcludeLambdaHandler false) = s
      ∧ s.set (.OnlyLambdaHandler false) = s
      ∧ s.set (.ExcludeAppsyncTypes false) = s
      ∧ s.set (.OnlyAppsyncTypes false) = s
      ∧ s.set (.ExcludeAppsyncOperations false) = s
      ∧ s.set (.OnlyAppsyncOperations false) = s)
    ∧ (s.set (.ExcludeLambdaHandler true) = { s with lambda_handler := false }
      ∧ s.set (.OnlyLambdaHandler true)
          = { s with lambda_handler := true, appsync_types := false, appsync_operations := false }
      ∧ s.set (.ExcludeAppsyncTypes true) = { s with appsync_types := false }
      ∧ s.set (.OnlyAppsyncTypes true)
          = { s with lambda_handler := false, appsync_types := true, appsync_operations := false }
      ∧ s.set (.ExcludeAppsyncOperations true) = { s with appsync_operations := false }
      ∧ s.set (.OnlyAppsyncOperations true)
          = { s with lambda_handler := false, appsync_types := false, appsync_operations := true })
    ∧ ((applyAll [.OnlyAppsyncTypes true, .ExcludeLambdaHandler true]).lambda_handler = false
      ∧ (applyAll [.OnlyAppsyncTypes true, .ExcludeLambdaHandler true]).appsync_types = true
      ∧ (applyAll [.OnlyAppsyncTypes true,
          .ExcludeLambdaHandler true]).appsync_operations = false) :=
  fun _ => ⟨⟨rfl, rfl, rfl, rfl, rfl, rfl⟩, ⟨rfl, rfl, rfl, rfl, rfl, rfl⟩, rfl, rfl, rfl⟩

theorem fieldOverride_set (s : OptionalParameters) (tov : TypeOverride) :
    fieldOverride (s.set (.TypeOverride tov)) tov.type_name tov.field_name
      = match tov.arg_name with
        | none => some tov
        | some _ => fieldOverride s tov.type_name tov.field_name := by
  unfold fieldOverride OptionalParameters.set
  simp only [alistGet_modify_self, alistGet_modify_self]
  cases harg : tov.arg_name with
  | none => simp
  | some an =>
    cases h1 : alistGet s.tos tov.type_name with
    | none => simp [h1, alistGet]
    | some ftos =>
      cases h2 : alistGet ftos tov.field_name with
      | none => simp [h1, h2, alistGet]
      | some fe => simp [h1, h2]

theorem argOverride_set (s : OptionalParameters) (tov : TypeOverride) (a : String) :
    argOverride (s.set (.TypeOverride tov)) tov.type_name tov.field_name a
      = match tov.arg_name with
        | none => argOverride s tov.type_name tov.field_name a
        | some an =>
          if an = a then some tov else argOverride s tov.type_name tov.field_name a := by
  unfold argOverride OptionalParameters.set
  simp only [alistGet_modify_self, alistGet_modify_self]
  cases harg : tov.arg_name with
  | none =>
    cases h1 : alistGet s.tos tov.type_name with
    | none => simp [h1, alistGet]
    | some ftos =>
      cases h2 : alistGet ftos tov.field_name with
      | none => simp [h1, h2, alistGet]
      | some fe => simp [h1, h2]
  | some an =>
    by_cases ha : an = a
    · subst ha
      cases h1 : alistGet s.tos tov.type_name <;>
        simp [h1, alistGet_insert_self]
    · have hne : a ≠ an := fun hh => ha hh.symm
      cases h1 : alistGet s.tos tov.type_name with
      | none => simp [h1, alistGet, ha, alistGet_insert_ne _ _ _ _ hne]
      | some ftos =>
        cases h2 : alistGet ftos tov.field_name with
        | none => simp [h1, h2, alistGet, ha, alistGet_insert_ne _ _ _ _ hne]
        | some fe => simp [h1, h2, ha, alistGet_insert_ne _ _ _ _ hne]

theorem applyAll_append_single (ps : List OptionalParameter) (p : OptionalParameter) :
    applyAll (ps ++ [p]) = (applyAll ps).set p := by
  simp [applyAll, List.foldl_append]

/-- C3: in the folded TypeOverrideMap a later field-level override for the
same Type.field replaces the earlier one while leaving every per-argument
slot of that field untouched, and an argument-level override fills only its
own argument slot, leaving the field-level slot and the other argument slots
untouched — so the two kinds of override coexist without clobbering each
other, whatever the directive sequence folded before. -/
theorem typeOverride_slots (ps : List OptionalParameter) (tov : TypeOverride) :
    (tov.arg_name = none →
      fieldOverride (applyAll (ps ++ [.TypeOverride tov])) tov.type_name tov.field_name
          = some tov
      ∧ ∀ a, argOverride (applyAll (ps ++ [.TypeOverride tov])) tov.type_name tov.field_name a
          = argOverride (applyAll ps) tov.type_name tov.field_name a)
    ∧ (∀ an, tov.arg_name = some an →
      argOverride (applyAll (ps ++ [.TypeOverride tov])) tov.type_name tov.field_name an
          = some tov
      ∧ fieldOverride (applyAll (ps ++ [.TypeOverride tov])) tov.type_name tov.field_name
          = fieldOverride (applyAll ps) tov.type_name tov.field_name
      ∧ ∀ b, b ≠ an →
          argOverride (applyAll (ps ++ [.TypeOverride tov])) tov.type_name tov.field_name b
            = argOverride (applyAll ps) tov.type_name tov.field_name b) := by
  rw [applyAll_append_single]
  constructor
  · intro hnone
    constructor
    · rw [fieldOverride_set, hnone]
    · intro a
      rw [argOverride_set, hnone]
  · intro an hsome
    refine ⟨?_, ?_, ?_⟩
    · rw [argOverride_set, hsome]
      simp
    · rw [fieldOverride_set, hsome]
    · intro b hb
      rw [argOverride_set, hsome]
      have hne : ¬ (an = b) := fun hh => hb hh.symm
      simp [hne]

/-- C3 witness: a field-level override on Player.id followed by an
argument-level override on Player.id.x: the argument slot holds the second
override while the field-level slot still holds the first. -/
theorem typeOverride_slots_witness :
    argOverride (applyAll [.TypeOverride ⟨"Player", "id", none, "String"⟩,
        .TypeOverride ⟨"Player", "id", some "x", "Int"⟩]) "Player" "id" "x"
      = some ⟨"Player", "id", some "x", "Int"⟩
    ∧ fieldOverride (applyAll [.TypeOverride ⟨"Player", "id", none, "String"⟩,
        .TypeOverride ⟨"Player", "id", some "x", "Int"⟩]) "Player" "id"
      = some ⟨"Player", "id", none, "String"⟩ := by
  have h := (typeOverride_slots [.TypeOverride ⟨"Player", "id", none, "String"⟩]
      ⟨"Player", "id", some "x", "Int"⟩).2 "x" rfl
  refine ⟨h.1, h.2.1.trans ?_⟩
  decide

/-- C4: with a hook configured, a non-null hook response is the handler's
result verbatim — the result is the same for every dispatch table, so the
matched operation handler is never consulted — while a null hook result
dispatches the event's tagged operation normally. -/
theorem hook_short_circuit {O : Type} (h : AppsyncEvent O → Option AppsyncResponse)
    (event : AppsyncEvent O) :
    (∀ resp, h event = some resp →
      ∀ execute : O → AppsyncEvent O → AppsyncResponse,
        appsync_handler (some h) execute event = resp)
    ∧ (h event = none →
      ∀ execute : O → AppsyncEvent O → AppsyncResponse,
        appsync_handler (some h) execute event = execute event.info.operation event) := by
  constructor
  · intro resp hre execute
    simp [appsync_handler, hre]
  · intro hre execute
    simp [appsync_handler, hre]

/-- C4 witness: the sample hook denies operation opA — the handler returns
the unauthorized response untouched — and passes on opB, where the handler
returns the dispatch table's result. -/
theorem hook_short_circuit_witness :
    appsync_handler (some sampleHook) sampleExecute (mkEvent .opA) = AppsyncResponse.unauthorized
    ∧ appsync_handler (some sampleHook) sampleExecute (mkEvent .opB)
        = sampleExecute (mkEvent .opB).info.operation (mkEvent .opB) :=
  ⟨(hook_short_circuit sampleHook (mkEvent .opA)).1 AppsyncResponse.unauthorized rfl sampleExecute,
    (hook_short_circuit sampleHook (mkEvent .opB)).2 rfl sampleExecute⟩

theorem arg_from_json_eq {T : Type} (decode : Json → Except String T) (args : Json)
    (name : String) :
    arg_from_json decode args name
      = match decode (jsonGetSlot args name) with
        | .ok t => (.ok t, jsonTakeSlot args name)
        | .error e =>
          (.error (AppsyncError.new "InvalidArgs"
            ("Argument \"" ++ name ++ "\" is not the expected format (" ++ e ++ ")")),
            jsonTakeSlot args name) := rfl

/-- C9: arg_from_json succeeds exactly when the value found at the argument
name — JSON null when the name is absent — deserializes into the requested
type, and otherwise yields an InvalidArgs error whose message contains the
offending argument's name. -/
theorem arg_from_json_spec {T : Type} (decode : Json → Except String T)
    (args : Json) (name : String) :
    (∀ t : T, (arg_from_json decode args name).1 = .ok t
      ↔ decode (jsonGetSlot args name) = .ok t)
    ∧ (∀ e : String, decode (jsonGetSlot args name) = .error e →
      (arg_from_json decode args name).1
          = .error (AppsyncError.new "InvalidArgs"
              ("Argument \"" ++ name ++ "\" is not the expected format (" ++ e ++ ")"))
      ∧ name.toList
          <:+: ("Argument \"" ++ name ++ "\" is not the expected format (" ++ e ++ ")").toList) := by
  constructor
  · intro t
    rw [arg_from_json_eq]
    cases hd : decode (jsonGetSlot args name) with
    | ok t0 => simp
    | error e => simp
  · intro e hd
    constructor
    · rw [arg_from_json_eq, hd]
    · refine ⟨("Argument \"").toList,
        ("\" is not the expected format (" ++ e ++ ")").toList, ?_⟩
      simp only [String.toList, String.data_append, List.append_assoc]

/-- C9 witness: extracting a string argument succeeds on a string slot and
fails with the InvalidArgs message naming the argument on a numeric slot. -/
theorem arg_from_json_spec_witness :
    ((arg_from_json decodeStr (.obj [("userId", .str "123"), ("count", .num 5)]) "userId").1
        = .ok "123")
    ∧ ((arg_from_json decodeStr (.obj [("userId", .str "123"), ("count", .num 5)]) "count").1
        = .error (AppsyncError.new "InvalidArgs"
            ("Argument \"" ++ "count" ++ "\" is not the expected format ("
              ++ "invalid type" ++ ")")))
    ∧ ("count".toList
        <:+: ("Argument \"" ++ "count" ++ "\" is not the expected format ("
            ++ "invalid type" ++ ")").toList) := by
  have h := (arg_from_json_spec decodeStr
      (.obj [("userId", .str "123"), ("count", .num 5)]) "count").2 "invalid type" rfl
  exact ⟨((arg_from_json_spec decodeStr
      (.obj [("userId", .str "123"), ("count", .num 5)]) "userId").1 "123").mpr rfl,
    h.1, h.2⟩

/-- C10: after any call to arg_from_json on an arguments object — succeeding
or failing — the named slot reads as JSON null (its value was moved out),
every other slot is unchanged, and the object keeps exactly its keys in
order. -/
theorem arg_from_json_frame {T : Type} (decode : Json → Except String T)
    (kvs : List (String × Json)) (name : String) :
    jsonGetSlot (arg_from_json decode (.obj kvs) name).2 name = .null
    ∧ (∀ k, k ≠ name → jsonGetSlot (arg_from_json decode (.obj kvs) name).2 k
        = jsonGetSlot (.obj kvs) k)
    ∧ Json.keys (arg_from_json decode (.obj kvs) name).2 = Json.keys (.obj kvs) := by
  have h2 : (arg_from_json decode (.obj kvs) name).2 = jsonTakeSlot (.obj kvs) name := by
    rw [arg_from_json_eq]
    cases decode (jsonGetSlot (.obj kvs) name) <;> rfl
  rw [h2]
  refine ⟨?_, ?_, ?_⟩
  · simp only [jsonTakeSlot, jsonGetSlot, alistGet_replace_self]
    cases alistGet kvs name <;> simp
  · intro k hk
    simp [jsonTakeSlot, jsonGetSlot, alistGet_replace_ne _ _ _ _ hk]
  · simp [jsonTakeSlot, Json.keys, alistReplace_keys]

/-- C10 witness: on a two-slot arguments object, extracting slot a leaves
slot a null, slot b untouched and the key list unchanged. -/
theorem arg_from_json_frame_witness :
    jsonGetSlot (arg_from_json decodeStr (.obj [("a", .str "x"), ("b", .num 1)]) "a").2 "a"
        = .null
    ∧ jsonGetSlot (arg_from_json decodeStr (.obj [("a", .str "x"), ("b", .num 1)]) "a").2 "b"
        = jsonGetSlot (.obj [("a", .str "x"), ("b", .num 1)]) "b"
    ∧ Json.keys (arg_from_json decodeStr (.obj [("a", .str "x"), ("b", .num 1)]) "a").2
        = Json.keys (.obj [("a", .str "x"), ("b", .num 1)]) := by
  have h := arg_from_json_frame decodeStr [("a", .str "x"), ("b", .num 1)] "a"
  exact ⟨h.1, h.2.1 "b" (by decide), h.2.2⟩

/-- C1: when the generated batch handler accepts a list of events (returns a
response array), the array has one entry per event and the entry at position
i is exactly event i's dispatch outcome; moreover awaiting the spawned
handles in original submission order observes each task's own outcome for
every completion order `sched`, so the result array never reorders. -/
theorem appsync_batch_order {O : Type} (run : AppsyncEvent O → Option AppsyncResponse)
    (events : List (AppsyncEvent O)) (res : List AppsyncResponse) (sched : List Nat)
    (hperm : sched.Perm (List.range events.length))
    (hacc : appsync_batch_handler run events = some res) :
    res.length = events.length
    ∧ (∀ i, (hi : i < events.length) → res[i]? = run (events.get ⟨i, hi⟩))
    ∧ (List.range events.length).map (awaitHandle (completeInOrder (events.map run) sched))
        = (events.map run).map some := by
  have hmap : events.map run = res.map some := collectResponses_some_imp _ _ hacc
  have hlen : res.length = events.length := by
    have hl := congrArg List.length hmap
    simpa using hl.symm
  refine ⟨hlen, ?_, ?_⟩
  · intro i hi
    have h1 := congrArg (fun l => l[i]?) hmap
    simp only [List.getElem?_map] at h1
    have he : events[i]? = some (events.get ⟨i, hi⟩) := List.getElem?_eq_getElem hi
    have hr : i < res.length := hlen ▸ hi
    have hres : res[i]? = some (res.get ⟨i, hr⟩) := List.getElem?_eq_getElem hr
    rw [he, hres] at h1
    simp only [Option.map_some'] at h1
    rw [hres]
    exact (Option.some.inj h1).symm
  · have hsub : ∀ j ∈ sched, j < (events.map run).length := by
      intro j hj
      have hjr : j ∈ List.range events.length := hperm.mem_iff.mp hj
      simpa using List.mem_range.mp hjr
    have hall : ∀ i ∈ List.range events.length,
        awaitHandle (completeInOrder (events.map run) sched) i = (events.map run)[i]? := by
      intro i hi
      exact awaitHandle_completeInOrder _ _ _ (hperm.mem_iff.mpr hi) hsub
    calc (List.range events.length).map (awaitHandle (completeInOrder (events.map run) sched))
        = (List.range events.length).map fun i => (events.map run)[i]? :=
          List.map_congr_left hall
      _ = (events.map run).map some := by
          have hm := map_getElem?_range (events.map run)
          simpa using hm

/-- C1 witness: the spec's three-event example under the completion order
2, 0, 1 — second task succeeds, first and third fail with domain errors —
accepted with response array err1, ok2, err3 in original order. -/
theorem appsync_batch_order_witness :
    appsync_batch_handler sampleRun sampleEvents
      = some [AppsyncResponse.fromError (AppsyncError.new "Err1" "first failed"),
          AppsyncResponse.fromValue (.str "ok2"),
          AppsyncResponse.fromError (AppsyncError.new "Err3" "third failed")]
    ∧ [AppsyncResponse.fromError (AppsyncError.new "Err1" "first failed"),
        AppsyncResponse.fromValue (.str "ok2"),
        AppsyncResponse.fromError (AppsyncError.new "Err3" "third failed")].length
      = sampleEvents.length
    ∧ (List.range sampleEvents.length).map
        (awaitHandle (completeInOrder (sampleEvents.map sampleRun) [2, 0, 1]))
      = (sampleEvents.map sampleRun).map some := by
  have hacc : appsync_batch_handler sampleRun sampleEvents
      = some [AppsyncResponse.fromError (AppsyncError.new "Err1" "first failed"),
          AppsyncResponse.fromValue (.str "ok2"),
          AppsyncResponse.fromError (AppsyncError.new "Err3" "third failed")] := rfl
  have h := appsync_batch_order sampleRun sampleEvents
      [AppsyncResponse.fromError (AppsyncError.new "Err1" "first failed"),
        AppsyncResponse.fromValue (.str "ok2"),
        AppsyncResponse.fromError (AppsyncError.new "Err3" "third failed")]
      [2, 0, 1] (by decide) hacc
  exact ⟨hacc, h.1, h.2.2⟩

/-- C5: an unexpected fault in any one batched task is fatal to the whole
batch invocation — no response array is returned — while a batch whose every
task completes (with data or a domain-error response) returns the full
per-event response array. -/
theorem appsync_batch_fault {O : Type} (run : AppsyncEvent O → Option AppsyncResponse)
    (events : List (AppsyncEvent O)) :
    ((∃ e ∈ events, run e = none) → appsync_batch_handler run events = none)
    ∧ ((∀ e ∈ events, run e ≠ none) →
      ∃ res, appsync_batch_handler run events = some res ∧ events.map run = res.map some) := by
  constructor
  · rintro ⟨e, he, hrun⟩
    apply (collectResponses_eq_none _).mpr
    have hm : run e ∈ events.map run := List.mem_map_of_mem run he
    rw [hrun] at hm
    exact hm
  · intro hall
    cases hres : appsync_batch_handler run events with
    | none =>
      exfalso
      have hn := (collectResponses_eq_none (events.map run)).mp hres
      obtain ⟨e, he, hrun⟩ := List.mem_map.mp hn
      exact hall e he hrun
    | some res =>
      exact ⟨res, rfl, collectResponses_some_imp _ _ hres⟩

/-- C5 witness: a two-event batch whose second task faults returns no array,
and the all-completing three-event batch returns the full array. -/
theorem appsync_batch_fault_witness :
    appsync_batch_handler faultyRun [mkEvent .opA, mkEvent .opB] = none
    ∧ ∃ res, appsync_batch_handler sampleRun sampleEvents = some res
        ∧ sampleEvents.map sampleRun = res.map some := by
  constructor
  · exact (appsync_batch_fault faultyRun [mkEvent .opA, mkEvent .opB]).1
      ⟨mkEvent .opB, by simp, rfl⟩
  · refine (appsync_batch_fault sampleRun sampleEvents).2 ?_
    intro e he
    have hcases : e = mkEvent .opA ∨ e = mkEvent .opB ∨ e = mkEvent .opC := by
      simpa [sampleEvents] using he
    rcases hcases with rfl | rfl | rfl <;> simp [sampleRun, mkEvent]
